import Mathlib

/-!
# Scroll-driven scene switching (`secondgroundstudios/script.js`)

A shallow embedding of the orchestration layer of `script.js`: the scene
registry `groups`, the transition function `switchScene`, the scroll router
callbacks, the per-frame `animate` function, the pointer parallax and the
resize handler, together with the properties of these functions.

Conventions of the embedding.

* Numbers are exact rationals (`ℚ`); `Math.sin` is a parameter of `animate`.
* The clock of the tween engine is kept in whole milliseconds (`ℕ`), so the
  durations `0.3` and `0.6` of the source are `300` and `600`.
* The tween engine (`gsap.to`) is an external library.  It is modelled by its
  contract: a tween started at time `s` with duration `d` reaches its target
  values at time `s + d` and then runs its `onComplete` callback once.  The
  interpolated values written between start and completion are not modelled:
  a scale in the model is the value of the last synchronous write or of the
  last completed tween.
* A call that throws is modelled by an `Outcome` that carries the state the call
  leaves behind and the way it completed.
-/

namespace Ms4a

/-! ## Data model -/

/-- The own property names of the object `groups` (lines 28-96), in insertion
order, which is the order of `for (let k in groups)`. -/
inductive Key
  | hero | hobby | city | cards | house | neve
  deriving DecidableEq, Repr

/-- All keys of the registry in `for ... in` order. -/
def sceneKeys : List Key := [.hero, .hobby, .city, .cards, .house, .neve]

/-- The property name of a registry key. -/
def Key.name : Key → String
  | .hero => "hero"
  | .hobby => "hobby"
  | .city => "city"
  | .cards => "cards"
  | .house => "house"
  | .neve => "neve"

/-- The own property of `groups` named by an arbitrary string: `some k` when
`key` is one of the six property names assigned in lines 28-96, `none`
otherwise. -/
def groupKey (key : String) : Option Key :=
  if key = "hero" then some .hero
  else if key = "hobby" then some .hobby
  else if key = "city" then some .city
  else if key = "cards" then some .cards
  else if key = "house" then some .house
  else if key = "neve" then some .neve
  else none

/-- The names of the properties that the object literal `{}` of line 28 inherits
from `Object.prototype` in a standard JavaScript environment.  Each of them is a
function or an object, hence truthy, and none is a scene. -/
def inheritedNames : List String :=
  ["constructor", "hasOwnProperty", "isPrototypeOf", "propertyIsEnumerable",
    "toLocaleString", "toString", "valueOf", "__proto__", "__defineGetter__",
    "__defineSetter__", "__lookupGetter__", "__lookupSetter__"]

/-- The kinds of value the lookup `groups[key]` of line 126 can give. -/
inductive Lookup
  /-- One of the six groups. -/
  | scene (k : Key)
  /-- An inherited function or object: truthy, extensible, without `scale`. -/
  | object
  /-- The inherited boolean `true`. -/
  | boolean
  /-- No such property. -/
  | undefined
  deriving DecidableEq

/-- The way a call completes. -/
inductive Completion
  /-- The call returned. -/
  | returned
  /-- The call threw a `TypeError`. -/
  | typeError
  deriving DecidableEq

/-- A three-component vector (`THREE.Vector3`, and the angles of `THREE.Euler`). -/
structure Vec3 where
  x : ℚ
  y : ℚ
  z : ℚ
  deriving DecidableEq

/-- The part of a `THREE.Object3D` the script reads or writes. -/
structure Group where
  visible : Bool
  scale : Vec3
  rotation : Vec3
  position : Vec3
  deriving DecidableEq

/-- A scale tween in flight: `gsap.to(groups[target].scale, vars)`.
`hides` records that `vars` carries the callback
`onComplete: () => { groups[k].visible = false; }` of line 124. -/
structure Tween where
  target : Key
  dest : Vec3
  start : ℕ
  duration : ℕ
  hides : Bool
  deriving DecidableEq

/-- The time at which a tween reaches its target values. -/
def Tween.finish (tw : Tween) : ℕ := tw.start + tw.duration

/-- The mutable state the scene machinery works on. -/
structure State where
  /-- The registry `groups`. -/
  groups : Key → Group
  /-- The particle system `snow`, a child of `groups.neve`. -/
  snow : Group
  /-- The tweens in flight, in order of creation. -/
  tweens : List Tween
  /-- The clock of the tween engine, in milliseconds. -/
  now : ℕ
  /-- The names `n` of inherited properties for which line 128 has run the
  assignment `groups[n].visible = true` on a value that is not a scene.  For
  `__proto__` that value is `Object.prototype` itself, so from then on every
  object without an own `visible` inherits `visible == true`. -/
  strayVisible : List String

/-- The state a call leaves behind together with the way it completed; an
exception thrown inside a scroll callback does not stop the page. -/
structure Outcome where
  state : State
  completion : Completion

/-- The value of `groups[key]` in state `s`.  After `Object.prototype.visible`
has been written the name `visible` is inherited as well, with value `true`. -/
def groupsGet (s : State) (key : String) : Lookup :=
  match groupKey key with
  | some k => .scene k
  | none =>
    if key ∈ inheritedNames then .object
    else if key = "visible" ∧ "__proto__" ∈ s.strayVisible then .boolean
    else .undefined

/-- A freshly constructed `THREE.Object3D`. -/
def object3D : Group :=
  { visible := true, scale := ⟨1, 1, 1⟩, rotation := ⟨0, 0, 0⟩, position := ⟨0, 0, 0⟩ }

/-- The state after lines 28-96: every group but `hero` has had `visible = false`
assigned; no tween has been started. -/
def initial : State :=
  { groups := fun k => if k = .hero then object3D else { object3D with visible := false }
    snow := object3D
    tweens := []
    now := 0
    strayVisible := [] }

/-! ## The tween engine -/

/-- Modelled from the spec: the external tween engine call `gsap.to`, which
registers a tween starting at the current time. -/
def gsapTo (s : State) (target : Key) (dest : Vec3) (duration : ℕ) (hides : Bool) : State :=
  { s with tweens := s.tweens ++ [⟨target, dest, s.now, duration, hides⟩] }

/-- Modelled from the spec: completion of one tween by the external tween
engine: the target scale takes the destination values, then `onComplete` (if
any) runs, which for an exit tween is `groups[k].visible = false`. -/
def Tween.complete (tw : Tween) (g : Key → Group) : Key → Group :=
  Function.update g tw.target
    { g tw.target with
      scale := tw.dest
      visible := if tw.hides then false else (g tw.target).visible }

/-- Completion of a list of tweens, one after the other. -/
def completeAll (l : List Tween) (g : Key → Group) : Key → Group :=
  l.foldl (fun acc tw => tw.complete acc) g

/-- Modelled from the spec: the external tween engine letting `dt` milliseconds
pass without running a completion callback. -/
def elapse (dt : ℕ) (s : State) : State :=
  { s with now := s.now + dt }

/-- Modelled from the spec: the external tween engine completing the tween in
flight that finishes first (the earliest created one among those finishing at
the same instant); the clock is moved to its completion time if that has not
been reached yet. -/
def completeNext (s : State) : State :=
  match s.tweens.argmin Tween.finish with
  | none => s
  | some m =>
    { s with
      groups := m.complete s.groups
      tweens := s.tweens.erase m
      now := max s.now m.finish }

/-- The engine completing the next tween `n` times. -/
def completeN : ℕ → State → State
  | 0, s => s
  | n + 1, s => completeN n (completeNext s)

/-- The state once every tween in flight has completed, each at its completion
time and in order of completion time. -/
def settle (s : State) : State :=
  completeN s.tweens.length s

/-! ## `switchScene` (lines 122-131) -/

/-- The loop of lines 123-125: an exit tween on every visible group.  Once
`Object.prototype.visible` has been written (see `State.strayVisible`) the loop
also visits the inherited name `visible`; there `groups[k]` is the boolean
`true`, which has no `scale`, so that `gsap.to` call has no target: it animates
nothing, its callback assigns to a boolean and writes no scene, and it is not a
scale tween.  The tweens on scene scales are those started for the six
groups. -/
def exitLoop (s : State) : State :=
  sceneKeys.foldl
    (fun st k => if (st.groups k).visible then gsapTo st k ⟨0, 0, 0⟩ 300 true else st) s

/-- The function `switchScene(key)`.  When `t = groups[key]` is truthy but not a
scene, line 128 is reached: for an inherited function or object the assignment
`t.visible = true` succeeds and `t.scale.set` then throws a `TypeError`, `t.scale`
being undefined; for the inherited boolean the assignment itself throws (the
script is a module, hence strict). -/
def switchScene (key : String) (s : State) : Outcome :=
  let s1 := exitLoop s
  match groupsGet s1 key with
  | .undefined => ⟨s1, .returned⟩
  | .object => ⟨{ s1 with strayVisible := key :: s1.strayVisible }, .typeError⟩
  | .boolean => ⟨s1, .typeError⟩
  | .scene t =>
    let s2 := { s1 with
      groups := Function.update s1.groups t
        { s1.groups t with visible := true, scale := ⟨0, 0, 0⟩ } }
    ⟨gsapTo s2 t ⟨1, 1, 1⟩ 600 false, .returned⟩

/-- The scenes whose `visible` flag is set. -/
def visibleKeys (s : State) : List Key :=
  sceneKeys.filter (fun k => (s.groups k).visible)

/-! ## The scroll router (lines 133-140) -/

/-- The list `sections` of line 133. -/
def sections : List String := ["hero", "hobby", "city", "cards", "house", "neve"]

/-- The argument of `switchScene` in the `onEnter` callback of line 137. -/
def onEnterKey (id : String) : String :=
  if id = "process" ∨ id = "contact" then "hero" else id

/-- The argument of `switchScene` in the `onEnterBack` callback of line 138. -/
def onEnterBackKey (id : String) : String :=
  if id = "process" ∨ id = "contact" then "hero" else id

/-- The `onEnter` callback of the trigger created for section `id`. -/
def onEnter (id : String) (s : State) : Outcome := switchScene (onEnterKey id) s

/-- The `onEnterBack` callback of the trigger created for section `id`. -/
def onEnterBack (id : String) (s : State) : Outcome := switchScene (onEnterBackKey id) s

/-! ## The animation loop (lines 105-116) -/

/-- The assignment `groups.k.rotation.y = v`. -/
def setRotationY (k : Key) (v : ℚ) (s : State) : State :=
  { s with
    groups := Function.update s.groups k
      { s.groups k with rotation := { (s.groups k).rotation with y := v } } }

/-- The assignment `groups.k.rotation.x = v`. -/
def setRotationX (k : Key) (v : ℚ) (s : State) : State :=
  { s with
    groups := Function.update s.groups k
      { s.groups k with rotation := { (s.groups k).rotation with x := v } } }

/-- The assignment `snow.rotation.y = v`. -/
def setSnowRotationY (v : ℚ) (s : State) : State :=
  { s with snow := { s.snow with rotation := { s.snow.rotation with y := v } } }

/-- The assignment `snow.position.y = v`. -/
def setSnowPositionY (v : ℚ) (s : State) : State :=
  { s with snow := { s.snow with position := { s.snow.position with y := v } } }

/-- One run of the body of `animate` (lines 106-112) at elapsed time `t`, the
value of `clock.getElapsedTime()`; `sin` stands for `Math.sin`.  The calls
`composer.render()` and `requestAnimationFrame(animate)` do not touch the
state. -/
def animate (sin : ℚ → ℚ) (t : ℚ) (s : State) : State :=
  let s1 := if (s.groups .hero).visible then
      setRotationX .hero (sin (t * 0.5) * 0.1) (setRotationY .hero (t * 0.2) s) else s
  let s2 := if (s1.groups .hobby).visible then setRotationY .hobby (-t * 0.3) s1 else s1
  let s3 := if (s2.groups .city).visible then setRotationY .city (t * 0.1) s2 else s2
  let s4 := if (s3.groups .cards).visible then setRotationY .cards (sin t * 0.2) s3 else s3
  if (s4.groups .neve).visible then
    setSnowPositionY (sin (t * 0.5) * 0.5) (setSnowRotationY (t * 0.1) s4) else s4

/-! ## Pointer parallax (lines 154-159) and resize (lines 162-167) -/

/-- The value of a JavaScript division of two non-negative integers. -/
inductive JSNum
  | num (q : ℚ)
  | infinity
  | nan
  deriving DecidableEq

/-- The JavaScript quotient `a / b` of two non-negative integers. -/
def jsDiv (a b : ℕ) : JSNum :=
  if b = 0 then (if a = 0 then .nan else .infinity) else .num ((a : ℚ) / (b : ℚ))

/-- The camera fields the script writes. -/
structure Camera where
  position : Vec3
  aspect : JSNum
  deriving DecidableEq

/-- The camera together with the sizes held by the renderer and the composer. -/
structure Pipeline where
  camera : Camera
  rendererSize : ℕ × ℕ
  composerSize : ℕ × ℕ
  deriving DecidableEq

/-- The variables of the tween on `camera.position` started at line 158; the
duration is in milliseconds. -/
structure CameraTween where
  x : ℚ
  y : ℚ
  duration : ℕ
  deriving DecidableEq

/-- The parallax tween started by the `mousemove` handler for the pointer sample
`(clientX, clientY)` in a window of size `innerWidth` by `innerHeight`. -/
def parallax (clientX clientY innerWidth innerHeight : ℚ) : CameraTween :=
  { x := clientX / innerWidth - 0.5
    y := -(clientY / innerHeight - 0.5)
    duration := 1000 }

/-- Modelled from the spec: completion of the camera tween by the external tween
engine: the animated properties `x` and `y` take the target values. -/
def CameraTween.complete (tw : CameraTween) (c : Camera) : Camera :=
  { c with position := { c.position with x := tw.x, y := tw.y } }

/-- The `resize` handler for a container of size `offsetWidth` by
`offsetHeight`. -/
def resize (offsetWidth offsetHeight : ℕ) (p : Pipeline) : Pipeline :=
  { camera := { p.camera with aspect := jsDiv offsetWidth offsetHeight }
    rendererSize := (offsetWidth, offsetHeight)
    composerSize := (offsetWidth, offsetHeight) }

/-- The camera and the sizes after the setup of lines 12-25 for a container of
size `offsetWidth` by `offsetHeight`. -/
def startupPipeline (offsetWidth offsetHeight : ℕ) : Pipeline :=
  { camera := { position := ⟨0, 0, 10⟩, aspect := jsDiv offsetWidth offsetHeight }
    rendererSize := (offsetWidth, offsetHeight)
    composerSize := (offsetWidth, offsetHeight) }

/-- A state in which every scene is visible. -/
def allVisible : State :=
  { initial with groups := fun _ => object3D }

/-- The state reached from the startup state by `switchScene("hobby")` at time 0,
`switchScene("city")` at 0.1s, the completion at 0.3s of the exit tween the
first call started on `hero`, and the passing of another 0.05s.  The exit tween
the second call started on `hero` is still in flight; `hero` is invisible. -/
def staleExitState : State :=
  elapse 50 (completeNext (switchScene "city" (elapse 100 (switchScene "hobby" initial).state)).state)

/-! ## Reachable states -/

/-- The states reachable from the startup state by calls of `switchScene`, the
passing of time and tween completions, interleaved in any way. -/
inductive Reachable : State → Prop
  | start : Reachable initial
  | call (key : String) {s : State} : Reachable s → Reachable (switchScene key s).state
  | wait (dt : ℕ) {s : State} : Reachable s → Reachable (elapse dt s)
  | complete {s : State} : Reachable s → Reachable (completeNext s)

/-- An exit tween on `x` and an entry tween on `y` are both in flight, the exit
finishing first. -/
def Overlap (s : State) (x y : Key) : Prop :=
  ∃ e ∈ s.tweens, ∃ n ∈ s.tweens,
    e.target = x ∧ e.hides = true ∧ n.target = y ∧ n.hides = false ∧ e.finish < n.finish

/-- Only scene `a` is visible, at full scale, and no tween is in flight. -/
def SettledOn (s : State) (a : Key) : Prop :=
  s.tweens = [] ∧ (s.groups a).scale = ⟨1, 1, 1⟩ ∧ ∀ k, (s.groups k).visible = true ↔ k = a

/-- The exit tweens started by a call of `switchScene` in state `s`. -/
def exitTweens (s : State) : List Tween :=
  (visibleKeys s).map (fun k => ⟨k, ⟨0, 0, 0⟩, s.now, 300, true⟩)

/-- The entry tween started by a call of `switchScene` targeting `t` in state `s`. -/
def entryTween (s : State) (t : Key) : Tween := ⟨t, ⟨1, 1, 1⟩, s.now, 600, false⟩

/-- The tweens started by the call `switchScene(key)` in state `s`. -/
def startedBy (key : String) (s : State) : List Tween :=
  (switchScene key s).state.tweens.drop s.tweens.length

/-! ## Basic facts about the registry and `switchScene` -/

theorem mem_sceneKeys (k : Key) : k ∈ sceneKeys := by
  cases k <;> simp [sceneKeys]

theorem groupKey_name (k : Key) : groupKey k.name = some k := by
  cases k <;> rfl

theorem mem_visibleKeys (s : State) (k : Key) :
    k ∈ visibleKeys s ↔ (s.groups k).visible = true := by
  simp [visibleKeys, mem_sceneKeys]

theorem mem_exitTweens (s : State) (tw : Tween) :
    tw ∈ exitTweens s ↔
      ∃ k, (s.groups k).visible = true ∧ tw = ⟨k, ⟨0, 0, 0⟩, s.now, 300, true⟩ := by
  unfold exitTweens
  rw [List.mem_map]
  constructor
  · rintro ⟨k, hk, rfl⟩
    exact ⟨k, (mem_visibleKeys s k).1 hk, rfl⟩
  · rintro ⟨k, hk, rfl⟩
    exact ⟨k, (mem_visibleKeys s k).2 hk, rfl⟩

theorem exitLoop_fold (l : List Key) (s : State) :
    l.foldl
        (fun st k => if (st.groups k).visible then gsapTo st k ⟨0, 0, 0⟩ 300 true else st) s
      = { s with
          tweens := s.tweens ++
            (l.filter (fun k => (s.groups k).visible)).map
              (fun k => ⟨k, ⟨0, 0, 0⟩, s.now, 300, true⟩) } := by
  induction l generalizing s with
  | nil => simp
  | cons k l ih =>
    rw [List.foldl_cons, ih]
    by_cases hk : (s.groups k).visible = true
    · simp [hk, gsapTo, List.filter_cons]
    · simp [hk, List.filter_cons]

theorem exitLoop_eq (s : State) :
    exitLoop s = { s with tweens := s.tweens ++ exitTweens s } := by
  unfold exitLoop exitTweens visibleKeys
  exact exitLoop_fold sceneKeys s

theorem switchScene_of_none {key : String} (h : groupKey key = none) (s : State) :
    (switchScene key s).state =
      { s with
        tweens := s.tweens ++ exitTweens s
        strayVisible :=
          if key ∈ inheritedNames then key :: s.strayVisible else s.strayVisible } := by
  by_cases h1 : key ∈ inheritedNames
  · simp [switchScene, groupsGet, h, exitLoop_eq, h1]
  · by_cases h2 : key = "visible" ∧ "__proto__" ∈ s.strayVisible
    · obtain ⟨rfl, hp⟩ := h2
      have h3 : "visible" ∉ inheritedNames := by decide
      simp [switchScene, groupsGet, h, exitLoop_eq, h3, hp]
    · simp [switchScene, groupsGet, h, exitLoop_eq, h1, h2]

theorem switchScene_completion_of_none {key : String} (h : groupKey key = none) (s : State) :
    (switchScene key s).completion =
      if key ∈ inheritedNames ∨ (key = "visible" ∧ "__proto__" ∈ s.strayVisible)
      then .typeError else .returned := by
  by_cases h1 : key ∈ inheritedNames
  · simp [switchScene, groupsGet, h, exitLoop_eq, h1]
  · by_cases h2 : key = "visible" ∧ "__proto__" ∈ s.strayVisible
    · obtain ⟨rfl, hp⟩ := h2
      have h3 : "visible" ∉ inheritedNames := by decide
      simp [switchScene, groupsGet, h, exitLoop_eq, h3, hp]
    · simp [switchScene, groupsGet, h, exitLoop_eq, h1, h2]

theorem switchScene_of_some {key : String} {t : Key} (h : groupKey key = some t) (s : State) :
    (switchScene key s).state =
      { s with
        groups := Function.update s.groups t
          { s.groups t with visible := true, scale := ⟨0, 0, 0⟩ }
        tweens := s.tweens ++ exitTweens s ++ [entryTween s t] } := by
  simp only [switchScene, groupsGet, h, exitLoop_eq, gsapTo, entryTween]

theorem switchScene_completion_of_some {key : String} {t : Key} (h : groupKey key = some t)
    (s : State) : (switchScene key s).completion = .returned := by
  simp only [switchScene, groupsGet, h]

/-! ## Facts about tween completion -/

theorem complete_apply_of_ne {tw : Tween} {k : Key} (h : tw.target ≠ k) (g : Key → Group) :
    tw.complete g k = g k := by
  unfold Tween.complete
  exact Function.update_noteq (Ne.symm h) _ _

theorem complete_apply_target (tw : Tween) (g : Key → Group) :
    tw.complete g tw.target =
      { g tw.target with
        scale := tw.dest
        visible := if tw.hides then false else (g tw.target).visible } := by
  unfold Tween.complete
  exact Function.update_same _ _ _

theorem complete_visible_iff (tw : Tween) (g : Key → Group) (k : Key) :
    (tw.complete g k).visible = true ↔
      (g k).visible = true ∧ (tw.target = k → tw.hides = false) := by
  by_cases h : tw.target = k
  · subst h
    rw [complete_apply_target]
    cases hh : tw.hides <;> simp
  · rw [complete_apply_of_ne h]
    simp [h]

theorem completeAll_apply_of_ne (l : List Tween) (g : Key → Group) (k : Key)
    (h : ∀ tw ∈ l, tw.target ≠ k) : completeAll l g k = g k := by
  induction l generalizing g with
  | nil => rfl
  | cons tw l ih =>
    have h1 : completeAll (tw :: l) g = completeAll l (tw.complete g) := rfl
    rw [h1, ih _ (fun x hx => h x (List.mem_cons_of_mem _ hx)),
      complete_apply_of_ne (h tw (List.mem_cons_self _ _))]

theorem completeNext_cases (s : State) :
    (s.tweens = [] ∧ completeNext s = s) ∨
      ∃ m ∈ s.tweens, (∀ tw ∈ s.tweens, m.finish ≤ tw.finish) ∧
        completeNext s =
          { s with
            groups := m.complete s.groups
            tweens := s.tweens.erase m
            now := max s.now m.finish } := by
  cases h : s.tweens.argmin Tween.finish with
  | none =>
    left
    exact ⟨List.argmin_eq_none.1 h, by simp [completeNext, h]⟩
  | some m =>
    right
    have hm : m ∈ s.tweens.argmin Tween.finish := by rw [h]; exact rfl
    exact ⟨m, List.argmin_mem hm, fun tw htw => List.le_of_mem_argmin htw hm,
      by simp [completeNext, h]⟩

theorem completeN_tweens (n : ℕ) (s : State) (h : s.tweens.length ≤ n) :
    (completeN n s).tweens = [] := by
  induction n generalizing s with
  | zero => simpa using h
  | succ n ih =>
    show (completeN n (completeNext s)).tweens = []
    apply ih
    rcases completeNext_cases s with ⟨h0, hs⟩ | ⟨m, hm, -, hs⟩
    · rw [hs, h0]; simp
    · rw [hs]
      simp only [List.length_erase_of_mem hm]
      omega

theorem completeN_apply_of_ne (n : ℕ) (s : State) (k : Key)
    (h : ∀ tw ∈ s.tweens, tw.target ≠ k) : (completeN n s).groups k = s.groups k := by
  induction n generalizing s with
  | zero => rfl
  | succ n ih =>
    show (completeN n (completeNext s)).groups k = s.groups k
    rcases completeNext_cases s with ⟨-, hs⟩ | ⟨m, hm, -, hs⟩
    · rw [hs]; exact ih s h
    · rw [ih (completeNext s) (by
        rw [hs]; exact fun tw htw => h tw (List.mem_of_mem_erase htw))]
      rw [hs]
      exact complete_apply_of_ne (h m hm) _

theorem completeN_visible_iff (n : ℕ) (s : State) (k : Key) (h : s.tweens.length ≤ n) :
    ((completeN n s).groups k).visible = true ↔
      (s.groups k).visible = true ∧ ∀ tw ∈ s.tweens, tw.target = k → tw.hides = false := by
  induction n generalizing s with
  | zero =>
    have h0 : s.tweens = [] := by simpa using h
    simp [completeN, h0]
  | succ n ih =>
    show ((completeN n (completeNext s)).groups k).visible = true ↔ _
    rcases completeNext_cases s with ⟨h0, hs⟩ | ⟨m, hm, -, hs⟩
    · rw [hs, ih s (by rw [h0]; simp)]
    · have hlen : (completeNext s).tweens.length ≤ n := by
        rw [hs]
        simp only [List.length_erase_of_mem hm]
        omega
      rw [ih _ hlen, hs]
      simp only [complete_visible_iff]
      constructor
      · rintro ⟨⟨hv, hmk⟩, hall⟩
        refine ⟨hv, fun tw htw htk => ?_⟩
        by_cases htm : tw = m
        · subst htm; exact hmk htk
        · exact hall tw ((List.mem_erase_of_ne htm).2 htw) htk
      · rintro ⟨hv, hall⟩
        exact ⟨⟨hv, hall m hm⟩, fun tw htw htk => hall tw (List.mem_of_mem_erase htw) htk⟩

theorem completeN_scale (n : ℕ) (s : State) (k : Key) (d : Vec3) (h : s.tweens.length ≤ n)
    (hall : ∀ tw ∈ s.tweens, tw.target = k → tw.dest = d)
    (hex : (s.groups k).scale = d ∨ ∃ tw ∈ s.tweens, tw.target = k) :
    ((completeN n s).groups k).scale = d := by
  induction n generalizing s with
  | zero =>
    have h0 : s.tweens = [] := by simpa using h
    rcases hex with hd | ⟨tw, htw, -⟩
    · exact hd
    · rw [h0] at htw; cases htw
  | succ n ih =>
    show ((completeN n (completeNext s)).groups k).scale = d
    rcases completeNext_cases s with ⟨h0, hs⟩ | ⟨m, hm, -, hs⟩
    · rw [hs]; exact ih s (by rw [h0]; simp) hall hex
    · have hlen : (completeNext s).tweens.length ≤ n := by
        rw [hs]
        simp only [List.length_erase_of_mem hm]
        omega
      apply ih _ hlen
      · rw [hs]; exact fun tw htw htk => hall tw (List.mem_of_mem_erase htw) htk
      · rw [hs]
        by_cases hmk : m.target = k
        · left
          subst hmk
          show (m.complete s.groups m.target).scale = d
          rw [complete_apply_target]
          exact hall m hm rfl
        · rcases hex with hd | ⟨tw, htw, htk⟩
          · left
            show (m.complete s.groups k).scale = d
            rw [complete_apply_of_ne hmk]; exact hd
          · right
            have htm : tw ≠ m := fun e => hmk (e ▸ htk)
            exact ⟨tw, (List.mem_erase_of_ne htm).2 htw, htk⟩

theorem settle_tweens (s : State) : (settle s).tweens = [] :=
  completeN_tweens _ s le_rfl

theorem settle_visible_iff (s : State) (k : Key) :
    ((settle s).groups k).visible = true ↔
      (s.groups k).visible = true ∧ ∀ tw ∈ s.tweens, tw.target = k → tw.hides = false :=
  completeN_visible_iff _ s k le_rfl

theorem settle_scale (s : State) (k : Key) (d : Vec3)
    (hall : ∀ tw ∈ s.tweens, tw.target = k → tw.dest = d)
    (hex : ∃ tw ∈ s.tweens, tw.target = k) : ((settle s).groups k).scale = d :=
  completeN_scale _ s k d le_rfl hall (Or.inr hex)

theorem settle_apply_of_ne (s : State) (k : Key) (h : ∀ tw ∈ s.tweens, tw.target ≠ k) :
    (settle s).groups k = s.groups k :=
  completeN_apply_of_ne _ s k h

/-! ## Settled states -/

theorem initial_settledOn_hero : SettledOn initial .hero := by
  refine ⟨rfl, rfl, fun k => ?_⟩
  cases k <;> simp [initial, object3D]

theorem visibleKeys_of_settledOn {s : State} {a : Key} (hs : SettledOn s a) :
    visibleKeys s = [a] := by
  have hv : (fun k => (s.groups k).visible) = fun k => decide (k = a) := by
    funext k
    by_cases hk : k = a
    · simp [hk, (hs.2.2 a).2 rfl]
    · have : (s.groups k).visible ≠ true := fun h => hk ((hs.2.2 k).1 h)
      simp [hk, this]
  unfold visibleKeys
  rw [hv]
  cases a <;> rfl

theorem exitTweens_of_settledOn {s : State} {a : Key} (hs : SettledOn s a) :
    exitTweens s = [⟨a, ⟨0, 0, 0⟩, s.now, 300, true⟩] := by
  simp [exitTweens, visibleKeys_of_settledOn hs]

/-! ## The transition between two scenes -/

/-- C5: from a settled state in which `a` is the only visible scene, at scale
`(1,1,1)`, a call `switchScene(b)` with `b ≠ a` starts a 0.3s exit tween on `a`
and a 0.6s entry tween on `b`; immediately after the call both `a` and `b` are
visible and `b` has scale `(0,0,0)`; once both tweens have completed `a` is
invisible, `b` is visible with scale `(1,1,1)`, every other scene is still
invisible and no tween is in flight.  The call returns. -/
theorem switchScene_cross_transition (a b : Key) (s : State) (hab : a ≠ b)
    (hs : SettledOn s a) :
    (switchScene b.name s).state.tweens =
        [⟨a, ⟨0, 0, 0⟩, s.now, 300, true⟩, ⟨b, ⟨1, 1, 1⟩, s.now, 600, false⟩] ∧
      ((switchScene b.name s).state.groups a).visible = true ∧
      ((switchScene b.name s).state.groups b).visible = true ∧
      ((switchScene b.name s).state.groups b).scale = ⟨0, 0, 0⟩ ∧
      ((settle (switchScene b.name s).state).groups a).visible = false ∧
      ((settle (switchScene b.name s).state).groups b).visible = true ∧
      ((settle (switchScene b.name s).state).groups b).scale = ⟨1, 1, 1⟩ ∧
      (∀ k, k ≠ a → k ≠ b → ((settle (switchScene b.name s).state).groups k).visible = false) ∧
      (settle (switchScene b.name s).state).tweens = [] ∧
      (switchScene b.name s).completion = .returned := by
  have hsw := switchScene_of_some (groupKey_name b) s
  rw [exitTweens_of_settledOn hs, hs.1] at hsw
  have hba : b ≠ a := Ne.symm hab
  have hva : (s.groups a).visible = true := (hs.2.2 a).2 rfl
  have htw : (switchScene b.name s).state.tweens =
      [⟨a, ⟨0, 0, 0⟩, s.now, 300, true⟩, ⟨b, ⟨1, 1, 1⟩, s.now, 600, false⟩] := by
    rw [hsw]; rfl
  have hga : (switchScene b.name s).state.groups a = s.groups a := by
    rw [hsw]; exact Function.update_noteq hab _ _
  have hgb : (switchScene b.name s).state.groups b =
      { s.groups b with visible := true, scale := ⟨0, 0, 0⟩ } := by
    rw [hsw]; exact Function.update_same _ _ _
  refine ⟨htw, ?_, ?_, ?_, ?_, ?_, ?_, ?_, settle_tweens _,
    switchScene_completion_of_some (groupKey_name b) s⟩
  · rw [hga]; exact hva
  · rw [hgb]
  · rw [hgb]
  · rw [Bool.eq_false_iff]
    intro h
    have h2 := ((settle_visible_iff _ a).1 h).2 ⟨a, ⟨0, 0, 0⟩, s.now, 300, true⟩
      (by rw [htw]; simp) rfl
    cases h2
  · rw [settle_visible_iff]
    refine ⟨by rw [hgb], fun tw htw2 htk => ?_⟩
    rw [htw] at htw2
    simp only [List.mem_cons, List.mem_singleton, List.not_mem_nil, or_false] at htw2
    rcases htw2 with rfl | rfl
    · exact absurd htk hab
    · rfl
  · apply settle_scale
    · intro tw htw2 htk
      rw [htw] at htw2
      simp only [List.mem_cons, List.mem_singleton, List.not_mem_nil, or_false] at htw2
      rcases htw2 with rfl | rfl
      · exact absurd htk hab
      · rfl
    · exact ⟨⟨b, ⟨1, 1, 1⟩, s.now, 600, false⟩, by rw [htw]; simp, rfl⟩
  · intro k hka hkb
    rw [Bool.eq_false_iff]
    intro h
    have h1 := ((settle_visible_iff _ k).1 h).1
    rw [hsw] at h1
    have h3 : (Function.update s.groups b
        { s.groups b with visible := true, scale := ⟨0, 0, 0⟩ } k) = s.groups k :=
      Function.update_noteq hkb _ _
    change (Function.update s.groups b _ k).visible = true at h1
    rw [h3] at h1
    exact hka ((hs.2.2 k).1 h1)

theorem switchScene_cross_transition_witness :
    Key.hero ≠ Key.hobby ∧ SettledOn initial .hero ∧
      ((settle (switchScene Key.hobby.name initial).state).groups .hero).visible = false ∧
      ((settle (switchScene Key.hobby.name initial).state).groups .hobby).visible = true ∧
      ((settle (switchScene Key.hobby.name initial).state).groups .hobby).scale = ⟨1, 1, 1⟩ :=
  have h := switchScene_cross_transition .hero .hobby initial (by decide) initial_settledOn_hero
  ⟨by decide, initial_settledOn_hero, h.2.2.2.2.1, h.2.2.2.2.2.1, h.2.2.2.2.2.2.1⟩

/-! ## A key that is not in the registry -/

/-- C2 (counterexample): in the startup state, where `hero` is the only visible
scene, at scale `(1,1,1)`, and no tween is in flight, the call
`switchScene("nonexistent")`, for which `groups[key]` is undefined, returns and
ends, once its tween has completed, with `hero` invisible at scale `(0,0,0)`. -/
theorem switchScene_unmapped_hides_active :
    groupKey "nonexistent" = none ∧ SettledOn initial .hero ∧
      ((settle (switchScene "nonexistent" initial).state).groups .hero).visible = false ∧
      ((settle (switchScene "nonexistent" initial).state).groups .hero).scale = ⟨0, 0, 0⟩ ∧
      visibleKeys (settle (switchScene "nonexistent" initial).state) = [] ∧
      groupsGet initial "nonexistent" = .undefined ∧
      (switchScene "nonexistent" initial).completion = .returned :=
  ⟨by decide, initial_settledOn_hero, by decide, by decide, by decide, by decide, by decide⟩

/-- C2 (amended): for a key that is not in the registry, `switchScene(key)`
writes no scene and starts no entry tween, but it does start the 0.3s exit tween
on the visible scene: from a settled state in which `a` is the only visible
scene, once that tween has completed `a` is invisible with scale `(0,0,0)`, no
other scene has changed and no tween is in flight.  The call returns when
`groups[key]` is undefined.  When `key` names a property inherited from
`Object.prototype` the call sets `visible` on that value, which is not a scene,
and throws a `TypeError`; when `key` is `visible` and `Object.prototype.visible`
has been written before, the call throws a `TypeError` as well.  In both cases
the exit tween has been started before. -/
theorem switchScene_unmapped (key : String) (s : State) (a : Key)
    (hkey : groupKey key = none) (hs : SettledOn s a) :
    (switchScene key s).state.groups = s.groups ∧
      (switchScene key s).state.tweens = [⟨a, ⟨0, 0, 0⟩, s.now, 300, true⟩] ∧
      ((settle (switchScene key s).state).groups a).visible = false ∧
      ((settle (switchScene key s).state).groups a).scale = ⟨0, 0, 0⟩ ∧
      (∀ k, k ≠ a → (settle (switchScene key s).state).groups k = s.groups k) ∧
      (settle (switchScene key s).state).tweens = [] ∧
      (groupsGet s key = .undefined →
        (switchScene key s).completion = .returned ∧
        (switchScene key s).state.strayVisible = s.strayVisible) ∧
      (key ∈ inheritedNames →
        groupsGet s key = .object ∧
        (switchScene key s).completion = .typeError ∧
        (switchScene key s).state.strayVisible = key :: s.strayVisible) ∧
      (key = "visible" → "__proto__" ∈ s.strayVisible →
        groupsGet s key = .boolean ∧
        (switchScene key s).completion = .typeError ∧
        (switchScene key s).state.strayVisible = s.strayVisible) := by
  have hsw := switchScene_of_none hkey s
  have hco := switchScene_completion_of_none hkey s
  have hsv : (switchScene key s).state.strayVisible =
      if key ∈ inheritedNames then key :: s.strayVisible else s.strayVisible := by
    rw [hsw]
  rw [exitTweens_of_settledOn hs, hs.1] at hsw
  have htw : (switchScene key s).state.tweens = [⟨a, ⟨0, 0, 0⟩, s.now, 300, true⟩] := by
    rw [hsw]; rfl
  have hg : (switchScene key s).state.groups = s.groups := by rw [hsw]
  have hget : groupsGet s key =
      if key ∈ inheritedNames then .object
      else if key = "visible" ∧ "__proto__" ∈ s.strayVisible then .boolean
      else .undefined := by
    simp only [groupsGet, hkey]
  refine ⟨hg, htw, ?_, ?_, ?_, settle_tweens _, ?_, ?_, ?_⟩
  · rw [Bool.eq_false_iff]
    intro h
    have h2 := ((settle_visible_iff _ a).1 h).2 ⟨a, ⟨0, 0, 0⟩, s.now, 300, true⟩
      (by rw [htw]; simp) rfl
    cases h2
  · apply settle_scale
    · intro tw htw2 _
      rw [htw] at htw2
      simp only [List.mem_singleton] at htw2
      rw [htw2]
    · exact ⟨⟨a, ⟨0, 0, 0⟩, s.now, 300, true⟩, by rw [htw]; simp, rfl⟩
  · intro k hka
    rw [settle_apply_of_ne, hg]
    intro tw htw2
    rw [htw] at htw2
    simp only [List.mem_singleton] at htw2
    rw [htw2]
    exact Ne.symm hka
  · intro hu
    rw [hget] at hu
    by_cases h1 : key ∈ inheritedNames
    · rw [if_pos h1] at hu; cases hu
    · rw [if_neg h1] at hu
      by_cases h2 : key = "visible" ∧ "__proto__" ∈ s.strayVisible
      · rw [if_pos h2] at hu; cases hu
      · rw [hco, hsv, if_neg h1, if_neg (fun h3 => h3.elim h1 h2)]
        exact ⟨rfl, rfl⟩
  · intro h1
    rw [hget, hco, hsv, if_pos h1, if_pos h1, if_pos (Or.inl h1)]
    exact ⟨rfl, rfl, rfl⟩
  · intro hk hp
    have h1 : key ∉ inheritedNames := by rw [hk]; decide
    rw [hget, hco, hsv, if_neg h1, if_neg h1, if_pos ⟨hk, hp⟩, if_pos (Or.inr ⟨hk, hp⟩)]
    exact ⟨rfl, rfl, rfl⟩

theorem switchScene_unmapped_witness :
    groupKey "nonexistent" = none ∧ SettledOn initial .hero ∧
      ((settle (switchScene "nonexistent" initial).state).groups .hero).visible = false ∧
      (∀ k, k ≠ Key.hero →
        (settle (switchScene "nonexistent" initial).state).groups k = initial.groups k) ∧
      (switchScene "nonexistent" initial).completion = .returned ∧
      groupKey "toString" = none ∧
      ((settle (switchScene "toString" initial).state).groups .hero).visible = false ∧
      (switchScene "toString" initial).completion = .typeError ∧
      SettledOn (settle (switchScene "hobby"
        (settle (switchScene "__proto__" initial).state)).state) .hobby ∧
      (switchScene "visible" (settle (switchScene "hobby"
        (settle (switchScene "__proto__" initial).state)).state)).completion = .typeError :=
  have h := switchScene_unmapped "nonexistent" initial .hero (by decide) initial_settledOn_hero
  have h2 := switchScene_unmapped "toString" initial .hero (by decide) initial_settledOn_hero
  have hs3 : SettledOn (settle (switchScene "hobby"
      (settle (switchScene "__proto__" initial).state)).state) .hobby :=
    ⟨by decide, by decide, fun k => by cases k <;> decide⟩
  have h3 := switchScene_unmapped "visible" _ .hobby (by decide) hs3
  ⟨by decide, initial_settledOn_hero, h.2.2.1, h.2.2.2.2.1, (h.2.2.2.2.2.2.1 (by decide)).1,
    by decide, h2.2.2.1, (h2.2.2.2.2.2.2.2.1 (by decide)).2.1, hs3,
    (h3.2.2.2.2.2.2.2.2 rfl (by decide)).2.1⟩

/-! ## A call that targets a scene that is still visible -/

/-- C3 (the code at the failing input): in the startup state `hero` is the only
visible scene, at scale `(1,1,1)`, and no tween is in flight; after
`switchScene("hero")` and the completion of the exit tween (0.3s) and of the
entry tween (0.6s) it started, `hero` has scale `(1,1,1)` but is invisible, and
no scene is visible.  The call returns. -/
theorem switchScene_same_target_hides_it :
    SettledOn initial .hero ∧
      (switchScene "hero" initial).state.tweens =
        [⟨.hero, ⟨0, 0, 0⟩, 0, 300, true⟩, ⟨.hero, ⟨1, 1, 1⟩, 0, 600, false⟩] ∧
      ((settle (switchScene "hero" initial).state).groups .hero).visible = false ∧
      ((settle (switchScene "hero" initial).state).groups .hero).scale = ⟨1, 1, 1⟩ ∧
      visibleKeys (settle (switchScene "hero" initial).state) = [] ∧
      (settle (switchScene "hero" initial).state).tweens = [] ∧
      (switchScene "hero" initial).completion = .returned :=
  ⟨initial_settledOn_hero, by decide, by decide, by decide, by decide, by decide, by decide⟩

/-! ## Convergence of a call -/

theorem reachable_tween_shape (s : State) (hr : Reachable s) :
    ∀ tw ∈ s.tweens, (tw.hides = true ∧ tw.dest = ⟨0, 0, 0⟩) ∨
      (tw.hides = false ∧ tw.dest = ⟨1, 1, 1⟩) := by
  induction hr with
  | start => intro tw htw; cases htw
  | @call key s _ ih =>
    intro tw htw
    have hex : ∀ tw ∈ exitTweens s, tw.hides = true ∧ tw.dest = ⟨0, 0, 0⟩ := by
      intro tw htw
      obtain ⟨k, -, rfl⟩ := (mem_exitTweens s tw).1 htw
      exact ⟨rfl, rfl⟩
    cases hk : groupKey key with
    | none =>
      rw [switchScene_of_none hk] at htw
      rcases List.mem_append.1 htw with h | h
      · exact ih tw h
      · exact Or.inl (hex tw h)
    | some t =>
      rw [switchScene_of_some hk] at htw
      rcases List.mem_append.1 htw with h | h
      · rcases List.mem_append.1 h with h | h
        · exact ih tw h
        · exact Or.inl (hex tw h)
      · rw [List.mem_singleton.1 h]
        exact Or.inr ⟨rfl, rfl⟩
  | @wait dt s _ ih => exact ih
  | @complete s _ ih =>
    intro tw htw
    rcases completeNext_cases s with ⟨-, hs⟩ | ⟨m, -, -, hs⟩
    · rw [hs] at htw; exact ih tw htw
    · rw [hs] at htw; exact ih tw (List.mem_of_mem_erase htw)

/-- C1 (counterexample): in the reachable state `staleExitState` the scene
`hero` is invisible while an exit tween on it, started by an earlier call, is
still in flight; after `switchScene("hero")` and the completion of every tween
no scene is visible: the earlier exit tween has hidden `hero` again. -/
theorem switchScene_stale_exit_hides_target :
    Reachable staleExitState ∧
      (staleExitState.groups .hero).visible = false ∧
      ((switchScene "hero" staleExitState).state.groups .hero).visible = true ∧
      (settle (switchScene "hero" staleExitState).state).tweens = [] ∧
      ((settle (switchScene "hero" staleExitState).state).groups .hero).visible = false ∧
      visibleKeys (settle (switchScene "hero" staleExitState).state) = [] :=
  ⟨Reachable.wait 50 (Reachable.complete (Reachable.call "city"
      (Reachable.wait 100 (Reachable.call "hobby" Reachable.start)))),
    by decide, by decide, by decide, by decide, by decide⟩

/-- C1 (amended): in every reachable state, for every registry key whose scene
`t` is not visible and has no exit tween in flight at the moment of the call:
once `switchScene` has been called with that key and every tween in flight has
completed, `t` is visible with scale `(1,1,1)`, every other scene is invisible
and no tween is in flight.  The call returns. -/
theorem switchScene_settles_on_fresh_target (s : State) (hr : Reachable s) (key : String)
    (t : Key) (hkey : groupKey key = some t) (hv : (s.groups t).visible = false)
    (hno : ∀ tw ∈ s.tweens, tw.target = t → tw.hides = false) :
    ((settle (switchScene key s).state).groups t).visible = true ∧
      ((settle (switchScene key s).state).groups t).scale = ⟨1, 1, 1⟩ ∧
      (∀ k, k ≠ t → ((settle (switchScene key s).state).groups k).visible = false) ∧
      visibleKeys (settle (switchScene key s).state) = [t] ∧
      (settle (switchScene key s).state).tweens = [] ∧
      (switchScene key s).completion = .returned := by
  have hsw := switchScene_of_some hkey s
  have hgt : (switchScene key s).state.groups t =
      { s.groups t with visible := true, scale := ⟨0, 0, 0⟩ } := by
    rw [hsw]; exact Function.update_same _ _ _
  have hgk : ∀ k, k ≠ t → (switchScene key s).state.groups k = s.groups k := by
    intro k hk
    rw [hsw]; exact Function.update_noteq hk _ _
  have hmem : ∀ tw, tw ∈ (switchScene key s).state.tweens ↔
      tw ∈ s.tweens ∨ tw ∈ exitTweens s ∨ tw = entryTween s t := by
    intro tw
    rw [hsw]
    simp only [List.mem_append, List.mem_singleton, or_assoc]
  have hont : ∀ tw ∈ (switchScene key s).state.tweens, tw.target = t →
      tw.hides = false ∧ tw.dest = ⟨1, 1, 1⟩ := by
    intro tw htw htt
    rcases (hmem tw).1 htw with h | h | h
    · have hh := hno tw h htt
      rcases reachable_tween_shape s hr tw h with ⟨h1, -⟩ | ⟨-, h2⟩
      · rw [hh] at h1; cases h1
      · exact ⟨hh, h2⟩
    · obtain ⟨j, hj, rfl⟩ := (mem_exitTweens s tw).1 h
      have e : j = t := htt
      rw [e, hv] at hj
      cases hj
    · rw [h]; exact ⟨rfl, rfl⟩
  have hvt : ((settle (switchScene key s).state).groups t).visible = true := by
    rw [settle_visible_iff]
    exact ⟨by rw [hgt], fun tw htw htt => (hont tw htw htt).1⟩
  have hvk : ∀ k, k ≠ t → ((settle (switchScene key s).state).groups k).visible = false := by
    intro k hk
    rw [Bool.eq_false_iff]
    intro h
    obtain ⟨h1, h2⟩ := (settle_visible_iff _ k).1 h
    rw [hgk k hk] at h1
    have h3 := h2 ⟨k, ⟨0, 0, 0⟩, s.now, 300, true⟩
      ((hmem _).2 (Or.inr (Or.inl ((mem_exitTweens s _).2 ⟨k, h1, rfl⟩)))) rfl
    cases h3
  refine ⟨hvt, ?_, hvk, ?_, settle_tweens _, switchScene_completion_of_some hkey s⟩
  · apply settle_scale
    · exact fun tw htw htt => (hont tw htw htt).2
    · exact ⟨entryTween s t, (hmem _).2 (Or.inr (Or.inr rfl)), rfl⟩
  · have hfun : (fun k => ((settle (switchScene key s).state).groups k).visible) =
        fun k => decide (k = t) := by
      funext k
      by_cases hk : k = t
      · subst hk; simp [hvt]
      · simp [hk, hvk k hk]
    unfold visibleKeys
    rw [hfun]
    cases t <;> rfl

theorem switchScene_settles_on_fresh_target_witness :
    Reachable (switchScene "hobby" initial).state ∧ groupKey "city" = some Key.city ∧
      ((switchScene "hobby" initial).state.groups .city).visible = false ∧
      visibleKeys (settle (switchScene "city" (switchScene "hobby" initial).state).state) = [Key.city] ∧
      ((settle (switchScene "city" (switchScene "hobby" initial).state).state).groups .city).scale
        = ⟨1, 1, 1⟩ :=
  have hr : Reachable (switchScene "hobby" initial).state := Reachable.call "hobby" Reachable.start
  have h := switchScene_settles_on_fresh_target (switchScene "hobby" initial).state hr "city" .city
    (by decide) (by decide) (by decide)
  ⟨hr, by decide, by decide, h.2.2.2.1, h.2.1⟩

/-! ## Overlapping transitions -/

theorem overlap_mono {s s' : State} {x y : Key} (h : ∀ tw ∈ s.tweens, tw ∈ s'.tweens)
    (ho : Overlap s x y) : Overlap s' x y := by
  obtain ⟨e, he, n, hn, hrest⟩ := ho
  exact ⟨e, h e he, n, h n hn, hrest⟩

theorem overlap_after_call {key : String} {t : Key} (h : groupKey key = some t) (s : State)
    (x : Key) (hx : (s.groups x).visible = true) : Overlap (switchScene key s).state x t := by
  refine ⟨⟨x, ⟨0, 0, 0⟩, s.now, 300, true⟩, ?_, entryTween s t, ?_, rfl, rfl, rfl, rfl, ?_⟩
  · rw [switchScene_of_some h]
    simp only [List.mem_append, List.mem_singleton]
    exact Or.inl (Or.inr ((mem_exitTweens s _).2 ⟨x, hx, rfl⟩))
  · rw [switchScene_of_some h]
    simp
  · simp only [Tween.finish, entryTween]
    omega

/-- C4 (counterexample): two calls of `switchScene` from the startup state, with
no tween completion between them, reach a state with three visible scenes. -/
theorem three_scenes_visible :
    Reachable (switchScene "city" (switchScene "hobby" initial).state).state ∧
      visibleKeys (switchScene "city" (switchScene "hobby" initial).state).state
        = [.hero, .hobby, .city] :=
  ⟨Reachable.call "city" (Reachable.call "hobby" Reachable.start), by decide⟩

/-- C4 (amended): in every state reachable from the startup state by calls of
`switchScene`, the passing of time and tween completions, of any two distinct
visible scenes one has an exit tween in flight and the other an entry tween in
flight that finishes later; so at most one visible scene is not being exited,
while the number of visible scenes is not bounded by two. -/
theorem reachable_overlap (s : State) (hr : Reachable s) (x y : Key) (hxy : x ≠ y)
    (hx : (s.groups x).visible = true) (hy : (s.groups y).visible = true) :
    Overlap s x y ∨ Overlap s y x := by
  induction hr generalizing x y with
  | start =>
    exfalso
    have h1 := (initial_settledOn_hero.2.2 x).1 hx
    have h2 := (initial_settledOn_hero.2.2 y).1 hy
    exact hxy (h1.trans h2.symm)
  | @call key s _ ih =>
    cases hk : groupKey key with
    | none =>
      have hsw := switchScene_of_none hk s
      rw [hsw] at hx hy
      have hm : ∀ tw ∈ s.tweens, tw ∈ (switchScene key s).state.tweens := by
        intro tw htw
        rw [hsw]
        exact List.mem_append_left _ htw
      exact (ih x y hxy hx hy).imp (overlap_mono hm) (overlap_mono hm)
    | some t =>
      have hsw := switchScene_of_some hk s
      have hm : ∀ tw ∈ s.tweens, tw ∈ (switchScene key s).state.tweens := by
        intro tw htw
        rw [hsw]
        exact List.mem_append_left _ (List.mem_append_left _ htw)
      have hold : ∀ k, k ≠ t → ((switchScene key s).state.groups k).visible = true →
          (s.groups k).visible = true := by
        intro k hkt hv
        rw [hsw] at hv
        change (Function.update s.groups t _ k).visible = true at hv
        rwa [Function.update_noteq hkt] at hv
      by_cases hxt : x = t
      · subst hxt
        exact Or.inr (overlap_after_call hk s y (hold y (Ne.symm hxy) hy))
      · by_cases hyt : y = t
        · subst hyt
          exact Or.inl (overlap_after_call hk s x (hold x hxt hx))
        · exact (ih x y hxy (hold x hxt hx) (hold y hyt hy)).imp
            (overlap_mono hm) (overlap_mono hm)
  | @wait dt s _ ih => exact ih x y hxy hx hy
  | @complete s _ ih =>
    rcases completeNext_cases s with ⟨-, hs⟩ | ⟨m, hm, hmin, hs⟩
    · rw [hs] at hx hy ⊢
      exact ih x y hxy hx hy
    · rw [hs] at hx hy
      have hx1 := (complete_visible_iff m s.groups x).1 hx
      have hy1 := (complete_visible_iff m s.groups y).1 hy
      have key : ∀ u v, (m.target = u → m.hides = false) → Overlap s u v →
          Overlap (completeNext s) u v := by
        rintro u v hu ⟨e, he, n, hn, h1, h2, h3, h4, h5⟩
        have hem : e ≠ m := by
          intro h
          subst h
          rw [hu h1] at h2
          cases h2
        have hnm : n ≠ m := by
          intro h
          subst h
          have := hmin e he
          omega
        rw [hs]
        exact ⟨e, (List.mem_erase_of_ne hem).2 he, n, (List.mem_erase_of_ne hnm).2 hn,
          h1, h2, h3, h4, h5⟩
      exact (ih x y hxy hx1.1 hy1.1).imp (key x y hx1.2) (key y x hy1.2)

theorem reachable_overlap_witness :
    Reachable (switchScene "hobby" initial).state ∧ Key.hero ≠ Key.hobby ∧
      (Overlap (switchScene "hobby" initial).state .hero .hobby ∨
        Overlap (switchScene "hobby" initial).state .hobby .hero) :=
  ⟨Reachable.call "hobby" Reachable.start, by decide,
    reachable_overlap _ (Reachable.call "hobby" Reachable.start) .hero .hobby (by decide)
      (by decide) (by decide)⟩

/-! ## Frame conditions of `switchScene` -/

theorem startedBy_eq (key : String) (s : State) :
    startedBy key s =
      exitTweens s ++ (match groupKey key with
        | none => []
        | some t => [entryTween s t]) := by
  unfold startedBy
  cases h : groupKey key with
  | none => rw [switchScene_of_none h]; simp
  | some t => rw [switchScene_of_some h]; simp [List.append_assoc]

/-- C10: a call `switchScene(key)` only appends tweens to the tweens in flight;
it never clears a `visible` flag synchronously; and a scene `k` that is not
visible at the call and is not the target keeps its state across the call, is
the target of none of the tweens the call starts, is left as it is by the
completion of these tweens, and, when no earlier tween on `k` is in flight, is
unchanged once every tween has completed.  The set of registry keys is the type
`Key` throughout. -/
theorem switchScene_frame (key : String) (s : State) (k : Key) :
    (switchScene key s).state.tweens = s.tweens ++ startedBy key s ∧
      ((s.groups k).visible = true → ((switchScene key s).state.groups k).visible = true) ∧
      ((s.groups k).visible = false → groupKey key ≠ some k →
        (switchScene key s).state.groups k = s.groups k ∧
        (∀ tw ∈ startedBy key s, tw.target ≠ k) ∧
        (∀ g, completeAll (startedBy key s) g k = g k) ∧
        ((∀ tw ∈ s.tweens, tw.target ≠ k) →
          (settle (switchScene key s).state).groups k = s.groups k)) := by
  have happ : (switchScene key s).state.tweens = s.tweens ++ startedBy key s := by
    rw [startedBy_eq]
    cases h : groupKey key with
    | none => rw [switchScene_of_none h]; simp
    | some t => rw [switchScene_of_some h]; simp [List.append_assoc]
  refine ⟨happ, ?_, ?_⟩
  · intro hv
    cases h : groupKey key with
    | none => rw [switchScene_of_none h]; exact hv
    | some t =>
      rw [switchScene_of_some h]
      by_cases hkt : k = t
      · subst hkt
        show (Function.update s.groups k _ k).visible = true
        rw [Function.update_same]
      · show (Function.update s.groups t _ k).visible = true
        rw [Function.update_noteq hkt]
        exact hv
  · intro hv hkey
    have hg : (switchScene key s).state.groups k = s.groups k := by
      cases h : groupKey key with
      | none => rw [switchScene_of_none h]
      | some t =>
        rw [switchScene_of_some h]
        have hkt : k ≠ t := fun e => hkey (by rw [h, e])
        exact Function.update_noteq hkt _ _
    have hst : ∀ tw ∈ startedBy key s, tw.target ≠ k := by
      intro tw htw
      rw [startedBy_eq, List.mem_append] at htw
      rcases htw with htw | htw
      · obtain ⟨j, hj, rfl⟩ := (mem_exitTweens s tw).1 htw
        intro e
        have e2 : j = k := e
        rw [e2, hv] at hj
        cases hj
      · cases h : groupKey key with
        | none => rw [h] at htw; cases htw
        | some t =>
          rw [h] at htw
          simp only [List.mem_singleton] at htw
          rw [htw]
          intro e
          have e2 : t = k := e
          exact hkey (by rw [h, e2])
    refine ⟨hg, hst, fun g => completeAll_apply_of_ne _ g k hst, fun hold => ?_⟩
    rw [settle_apply_of_ne, hg]
    intro tw htw
    rw [happ, List.mem_append] at htw
    rcases htw with htw | htw
    · exact hold tw htw
    · exact hst tw htw

theorem switchScene_frame_witness :
    ((switchScene "hobby" initial).state.groups .hero).visible = true ∧
      (switchScene "hobby" initial).state.groups .city = initial.groups .city ∧
      (settle (switchScene "hobby" initial).state).groups .city = initial.groups .city :=
  ⟨(switchScene_frame "hobby" initial .hero).2.1 (by decide),
    ((switchScene_frame "hobby" initial .city).2.2 (by decide) (by decide)).1,
    ((switchScene_frame "hobby" initial .city).2.2 (by decide) (by decide)).2.2.2
      (by intro tw htw; cases htw)⟩

/-! ## The scroll router -/

/-- C6: for every section id the `onEnter` and the `onEnterBack` trigger pass the
same key to `switchScene` (so the two callbacks are the same state change); that
key is `hero` for the ids `process` and `contact` and the id itself otherwise;
and for each id of the configured list `sections` the key is the id and is a key
of the scene registry. -/
theorem router_mapping (id : String) :
    onEnterKey id = onEnterBackKey id ∧
      (∀ s, onEnter id s = onEnterBack id s) ∧
      (id = "process" ∨ id = "contact" → onEnterKey id = "hero") ∧
      (¬ (id = "process" ∨ id = "contact") → onEnterKey id = id) ∧
      (id ∈ sections → onEnterKey id = id ∧ ∃ k, groupKey id = some k ∧ k.name = id) := by
  refine ⟨rfl, fun s => rfl, fun h => ?_, fun h => ?_, fun h => ?_⟩
  · simp [onEnterKey, h]
  · simp only [onEnterKey, if_neg h]
  · simp only [sections, List.mem_cons, List.mem_singleton, List.not_mem_nil, or_false] at h
    rcases h with rfl | rfl | rfl | rfl | rfl | rfl
    · exact ⟨by decide, .hero, by decide, by decide⟩
    · exact ⟨by decide, .hobby, by decide, by decide⟩
    · exact ⟨by decide, .city, by decide, by decide⟩
    · exact ⟨by decide, .cards, by decide, by decide⟩
    · exact ⟨by decide, .house, by decide, by decide⟩
    · exact ⟨by decide, .neve, by decide, by decide⟩

theorem router_mapping_witness :
    onEnterKey "contact" = "hero" ∧ onEnterKey "about" = "about" ∧
      (onEnterKey "city" = "city" ∧ ∃ k, groupKey "city" = some k ∧ k.name = "city") :=
  ⟨(router_mapping "contact").2.2.1 (Or.inr rfl),
    (router_mapping "about").2.2.2.1 (by decide),
    (router_mapping "city").2.2.2.2 (by decide)⟩

/-! ## Pointer parallax -/

/-- C7: for a pointer sample `(x, y)` in a viewport of size `(w, h)` with `w > 0`
and `h > 0` the parallax tween targets `(x/w - 0.5, -(y/h - 0.5))`; on
completion the camera has exactly these `x` and `y`, whatever its position was
before; for the viewport centre the target is `(0, 0)`; and for `0 ≤ x ≤ w`,
`0 ≤ y ≤ h` both components lie in `[-0.5, 0.5]`. -/
theorem parallax_target (x y w h : ℚ) (hw : 0 < w) (hh : 0 < h) :
    (parallax x y w h).x = x / w - 0.5 ∧
      (parallax x y w h).y = -(y / h - 0.5) ∧
      (∀ c : Camera, ((parallax x y w h).complete c).position =
        ⟨x / w - 0.5, -(y / h - 0.5), c.position.z⟩) ∧
      (parallax (w / 2) (h / 2) w h).x = 0 ∧
      (parallax (w / 2) (h / 2) w h).y = 0 ∧
      (0 ≤ x → x ≤ w → 0 ≤ y → y ≤ h →
        (-0.5 ≤ (parallax x y w h).x ∧ (parallax x y w h).x ≤ 0.5) ∧
        (-0.5 ≤ (parallax x y w h).y ∧ (parallax x y w h).y ≤ 0.5)) := by
  have hw0 : w ≠ 0 := ne_of_gt hw
  have hh0 : h ≠ 0 := ne_of_gt hh
  refine ⟨rfl, rfl, fun c => rfl, ?_, ?_, ?_⟩
  · have e : w / 2 / w = 1 / 2 := by field_simp; ring
    simp only [parallax, e]
    norm_num
  · have e : h / 2 / h = 1 / 2 := by field_simp; ring
    simp only [parallax, e]
    norm_num
  · intro hx0 hxw hy0 hyh
    have h1 : 0 ≤ x / w := div_nonneg hx0 (le_of_lt hw)
    have h2 : x / w ≤ 1 := (div_le_one hw).2 hxw
    have h3 : 0 ≤ y / h := div_nonneg hy0 (le_of_lt hh)
    have h4 : y / h ≤ 1 := (div_le_one hh).2 hyh
    simp only [parallax]
    norm_num
    refine ⟨⟨?_, ?_⟩, ⟨?_, ?_⟩⟩ <;> linarith

theorem parallax_target_witness :
    (0 : ℚ) < 800 ∧ (0 : ℚ) < 600 ∧
      (parallax 400 300 800 600).x = 0 ∧ (parallax 400 300 800 600).y = 0 ∧
      (-0.5 ≤ (parallax 800 0 800 600).x ∧ (parallax 800 0 800 600).x ≤ 0.5) :=
  ⟨by norm_num, by norm_num,
    by
      have h := (parallax_target 400 300 800 600 (by norm_num) (by norm_num)).1
      rw [h]; norm_num,
    by
      have h := (parallax_target 400 300 800 600 (by norm_num) (by norm_num)).2.1
      rw [h]; norm_num,
    ((parallax_target 800 0 800 600 (by norm_num) (by norm_num)).2.2.2.2.2
      (by norm_num) (by norm_num) (by norm_num) (by norm_num)).1⟩

/-! ## Resize -/

/-- C8 (counterexample): after the setup for a container of 800 by 600 the
aspect is `4/3` and the sizes are `(800, 600)`; a resize event with a container
of 800 by 0 sets the aspect to `Infinity` and both sizes to `(800, 0)`. -/
theorem resize_zero_height_writes :
    (startupPipeline 800 600).camera.aspect = .num (4 / 3) ∧
      (startupPipeline 800 600).rendererSize = (800, 600) ∧
      (resize 800 0 (startupPipeline 800 600)).camera.aspect = .infinity ∧
      (resize 800 0 (startupPipeline 800 600)).rendererSize = (800, 0) ∧
      (resize 800 0 (startupPipeline 800 600)).composerSize = (800, 0) ∧
      resize 800 0 (startupPipeline 800 600) ≠ startupPipeline 800 600 := by
  refine ⟨?_, rfl, rfl, rfl, rfl, ?_⟩
  · simp only [startupPipeline, jsDiv]
    norm_num
  · intro h
    have h2 := congrArg Pipeline.rendererSize h
    simp [resize, startupPipeline] at h2

/-- C8 (amended): the resize handler has no guard: for every container size
`(w, h)` it sets the size of the renderer and of the composer to `(w, h)` and
`camera.aspect` to the JavaScript quotient `w / h`, which is the number `w/h`
when `h > 0`, `Infinity` when `h = 0 < w` and `NaN` when `w = h = 0`; the camera
position is not touched. -/
theorem resize_sets (w h : ℕ) (p : Pipeline) :
    (resize w h p).rendererSize = (w, h) ∧
      (resize w h p).composerSize = (w, h) ∧
      (resize w h p).camera.position = p.camera.position ∧
      (0 < h → (resize w h p).camera.aspect = .num ((w : ℚ) / (h : ℚ))) ∧
      (h = 0 → 0 < w → (resize w h p).camera.aspect = .infinity) ∧
      (h = 0 → w = 0 → (resize w h p).camera.aspect = .nan) := by
  refine ⟨rfl, rfl, rfl, fun hh => ?_, fun hh hw => ?_, fun hh hw => ?_⟩
  · have : h ≠ 0 := by omega
    simp [resize, jsDiv, this]
  · have : w ≠ 0 := by omega
    simp [resize, jsDiv, hh, this]
  · simp [resize, jsDiv, hh, hw]

theorem resize_sets_witness :
    (resize 400 300 (resize 800 600 (startupPipeline 1024 768))).camera.aspect
        = .num ((400 : ℕ) / (300 : ℕ)) ∧
      (resize 400 300 (resize 800 600 (startupPipeline 1024 768))).rendererSize = (400, 300) ∧
      (resize 800 0 (startupPipeline 800 600)).camera.aspect = .infinity ∧
      (resize 0 0 (startupPipeline 800 600)).camera.aspect = .nan :=
  ⟨(resize_sets 400 300 _).2.2.2.1 (by decide), (resize_sets 400 300 _).1,
    (resize_sets 800 0 _).2.2.2.2.1 rfl (by decide),
    (resize_sets 0 0 _).2.2.2.2.2 rfl rfl⟩

/-! ## The animation loop -/

theorem vec3_eq {u v : Vec3} (hx : u.x = v.x) (hy : u.y = v.y) (hz : u.z = v.z) : u = v := by
  cases u; cases v; simp_all

theorem group_eq {g h : Group} (h1 : g.visible = h.visible) (h2 : g.scale = h.scale)
    (h3 : g.rotation = h.rotation) (h4 : g.position = h.position) : g = h := by
  cases g; cases h; simp_all

theorem animate_fields (sin : ℚ → ℚ) (t : ℚ) (s : State) (k : Key) :
    ((animate sin t s).groups k).visible = (s.groups k).visible ∧
      ((animate sin t s).groups k).scale = (s.groups k).scale ∧
      ((animate sin t s).groups k).position = (s.groups k).position ∧
      ((animate sin t s).groups k).rotation.z = (s.groups k).rotation.z ∧
      ((animate sin t s).groups k).rotation.y =
        (if (s.groups k).visible = true then
          (match k with
            | .hero => t * 0.2
            | .hobby => -t * 0.3
            | .city => t * 0.1
            | .cards => sin t * 0.2
            | .house => (s.groups k).rotation.y
            | .neve => (s.groups k).rotation.y)
        else (s.groups k).rotation.y) ∧
      ((animate sin t s).groups k).rotation.x =
        (if (s.groups k).visible = true ∧ k = .hero then sin (t * 0.5) * 0.1
        else (s.groups k).rotation.x) := by
  cases hh : (s.groups .hero).visible <;> cases hb : (s.groups .hobby).visible <;>
    cases hc : (s.groups .city).visible <;> cases hd : (s.groups .cards).visible <;>
    cases hn : (s.groups .neve).visible <;> cases k <;>
    simp [animate, setRotationX, setRotationY, setSnowRotationY, setSnowPositionY,
      Function.update, hh, hb, hc, hd, hn]

theorem animate_snow (sin : ℚ → ℚ) (t : ℚ) (s : State) :
    (animate sin t s).snow =
      if (s.groups .neve).visible = true then
        { s.snow with
          rotation := { s.snow.rotation with y := t * 0.1 }
          position := { s.snow.position with y := sin (t * 0.5) * 0.5 } }
      else s.snow := by
  cases hh : (s.groups .hero).visible <;> cases hb : (s.groups .hobby).visible <;>
    cases hc : (s.groups .city).visible <;> cases hd : (s.groups .cards).visible <;>
    cases hn : (s.groups .neve).visible <;>
    simp [animate, setRotationX, setRotationY, setSnowRotationY, setSnowPositionY,
      Function.update, hh, hb, hc, hd, hn]

theorem animate_rest (sin : ℚ → ℚ) (t : ℚ) (s : State) :
    (animate sin t s).tweens = s.tweens ∧ (animate sin t s).now = s.now := by
  cases hh : (s.groups .hero).visible <;> cases hb : (s.groups .hobby).visible <;>
    cases hc : (s.groups .city).visible <;> cases hd : (s.groups .cards).visible <;>
    cases hn : (s.groups .neve).visible <;>
    simp [animate, setRotationX, setRotationY, setSnowRotationY, setSnowPositionY,
      Function.update, hh, hb, hc, hd, hn]
/-- C9: one tick of `animate` at elapsed time `t` never changes the `visible`
flag, the scale or the position of a scene, nor the tweens in flight; it leaves
every invisible scene, the scenes `house` and `neve`, and (when `neve` is
invisible) the particle system `snow` exactly as they are; and what it writes
for a visible scene is a function of `t` alone, whatever the transform was
before: hero `rotation.y = 0.2t`, `rotation.x = 0.1 sin(0.5t)`; hobby
`rotation.y = -0.3t`; city `rotation.y = 0.1t`; cards `rotation.y = 0.2 sin(t)`;
neve `snow.rotation.y = 0.1t`, `snow.position.y = 0.5 sin(0.5t)`. -/
theorem animate_frame (sin : ℚ → ℚ) (t : ℚ) (s : State) :
    (∀ k, ((animate sin t s).groups k).visible = (s.groups k).visible ∧
        ((animate sin t s).groups k).scale = (s.groups k).scale ∧
        ((animate sin t s).groups k).position = (s.groups k).position) ∧
      ((animate sin t s).snow.visible = s.snow.visible ∧
        (animate sin t s).snow.scale = s.snow.scale) ∧
      (animate sin t s).tweens = s.tweens ∧
      (∀ k, (s.groups k).visible = false → (animate sin t s).groups k = s.groups k) ∧
      ((s.groups .neve).visible = false → (animate sin t s).snow = s.snow) ∧
      (animate sin t s).groups .house = s.groups .house ∧
      (animate sin t s).groups .neve = s.groups .neve ∧
      ((s.groups .hero).visible = true →
        ((animate sin t s).groups .hero).rotation.y = 0.2 * t ∧
        ((animate sin t s).groups .hero).rotation.x = 0.1 * sin (0.5 * t)) ∧
      ((s.groups .hobby).visible = true →
        ((animate sin t s).groups .hobby).rotation.y = -0.3 * t) ∧
      ((s.groups .city).visible = true →
        ((animate sin t s).groups .city).rotation.y = 0.1 * t) ∧
      ((s.groups .cards).visible = true →
        ((animate sin t s).groups .cards).rotation.y = 0.2 * sin t) ∧
      ((s.groups .neve).visible = true →
        (animate sin t s).snow.rotation.y = 0.1 * t ∧
        (animate sin t s).snow.position.y = 0.5 * sin (0.5 * t)) := by
  have hf := animate_fields sin t s
  have hsn := animate_snow sin t s
  have ht : t * 0.5 = 0.5 * t := mul_comm _ _
  have same : ∀ k, ((s.groups k).visible = false ∨ k = .house ∨ k = .neve) →
      (animate sin t s).groups k = s.groups k := by
    intro k hk
    obtain ⟨h1, h2, h3, h4, h5, h6⟩ := hf k
    refine group_eq h1 h2 (vec3_eq ?_ ?_ h4) h3
    · rw [h6]
      rcases hk with hk | rfl | rfl <;> simp_all
    · rw [h5]
      rcases hk with hk | rfl | rfl <;> simp_all
  refine ⟨fun k => ⟨(hf k).1, (hf k).2.1, (hf k).2.2.1⟩, ?_, (animate_rest sin t s).1,
    fun k hk => same k (Or.inl hk), ?_, same _ (Or.inr (Or.inl rfl)),
    same _ (Or.inr (Or.inr rfl)), ?_, ?_, ?_, ?_, ?_⟩
  · rw [hsn]
    split <;> exact ⟨rfl, rfl⟩
  · intro hv
    rw [hsn, if_neg (by rw [hv]; decide)]
  · intro hv
    obtain ⟨-, -, -, -, h5, h6⟩ := hf .hero
    rw [h5, h6, if_pos hv, if_pos ⟨hv, rfl⟩, ht]
    exact ⟨mul_comm _ _, mul_comm _ _⟩
  · intro hv
    obtain ⟨-, -, -, -, h5, -⟩ := hf .hobby
    rw [h5, if_pos hv]
    show -t * 0.3 = -0.3 * t
    ring
  · intro hv
    obtain ⟨-, -, -, -, h5, -⟩ := hf .city
    rw [h5, if_pos hv]
    exact mul_comm _ _
  · intro hv
    obtain ⟨-, -, -, -, h5, -⟩ := hf .cards
    rw [h5, if_pos hv]
    exact mul_comm _ _
  · intro hv
    rw [hsn, if_pos hv, ← ht]
    exact ⟨mul_comm _ _, mul_comm _ _⟩

theorem animate_frame_witness :
    (animate (fun _ => 0) 1 initial).groups .hobby = initial.groups .hobby ∧
      (animate (fun _ => 0) 1 initial).snow = initial.snow ∧
      ((animate (fun _ => 0) 1 initial).groups .hero).rotation.y = 0.2 * 1 ∧
      ((animate (fun _ => 0) 1 allVisible).groups .hobby).rotation.y = -0.3 * 1 ∧
      ((animate (fun _ => 0) 1 allVisible).groups .city).rotation.y = 0.1 * 1 ∧
      ((animate (fun _ => 0) 1 allVisible).groups .cards).rotation.y = 0.2 * 0 ∧
      (animate (fun _ => 0) 1 allVisible).snow.rotation.y = 0.1 * 1 :=
  ⟨(animate_frame (fun _ => 0) 1 initial).2.2.2.1 .hobby rfl,
    (animate_frame (fun _ => 0) 1 initial).2.2.2.2.1 rfl,
    ((animate_frame (fun _ => 0) 1 initial).2.2.2.2.2.2.2.1 rfl).1,
    (animate_frame (fun _ => 0) 1 allVisible).2.2.2.2.2.2.2.2.1 rfl,
    (animate_frame (fun _ => 0) 1 allVisible).2.2.2.2.2.2.2.2.2.1 rfl,
    (animate_frame (fun _ => 0) 1 allVisible).2.2.2.2.2.2.2.2.2.2.1 rfl,
    ((animate_frame (fun _ => 0) 1 allVisible).2.2.2.2.2.2.2.2.2.2.2 rfl).1⟩

end Ms4a
